import Mathlib

/-!
# bitcoin-rates-exporter: the scrape-and-expose cycle of `main.go`

A shallow embedding of the `exporter` type of `main.go` and of its methods
`Describe`, `Collect`, `scrape` and of `newExporter`.

* The Prometheus client types (`Desc`, `Gauge`, `Counter`, `GaugeVec`) belong to
  an external library; they are modelled by their documented behaviour: a gauge
  holds the last value stored by `Set`, a counter is increased by one by `Inc`,
  a gauge vector holds one child gauge per tuple of label values, created on
  first use by `With`.
* A `float64` is kept as its IEEE-754 bit pattern. `main.go` performs no
  floating-point arithmetic: prices are decoded, stored and emitted unchanged.
* The network and the JSON decoder are the environment. One call of
  `client.Get` followed by `Decode` is described by a `GetResult`: the transport
  error, or the response with its status code and the outcome of decoding its
  body. A decoded Go map is given as the list of its entries in the order the
  `range` loop visits them; its keys are pairwise distinct.
* `log.Printf` writes to the process log only and is not part of the state.
* `Collect` runs under `e.mutex`; the embedding is of one call at a time.
-/

namespace BitcoinRatesExporter

/-! ## Values -/

/-- A Go `float64`, represented by its bit pattern (`math.Float64bits`). -/
structure float64 where
  bits : Nat
  deriving DecidableEq, Repr

/-- The `float64` constant `0`. -/
def float64.zero : float64 := ⟨0⟩

/-- The `float64` constant `1` (`0x3FF0000000000000`). -/
def float64.one : float64 := ⟨4607182418800017408⟩

/-! ## Prometheus client types -/

/-- Descriptor of a metric: fully-qualified name, help text, variable label names. -/
structure Desc where
  fqName : String
  help : String
  variableLabels : List String
  deriving DecidableEq, Repr

/-- The library function `prometheus.BuildFQName`: the non-empty parts joined by `_`. -/
def BuildFQName (ns subsystem name : String) : String :=
  if name = "" then ""
  else if ns ≠ "" ∧ subsystem ≠ "" then ns ++ "_" ++ subsystem ++ "_" ++ name
  else if ns ≠ "" then ns ++ "_" ++ name
  else if subsystem ≠ "" then subsystem ++ "_" ++ name
  else name

/-- The fields of `prometheus.GaugeOpts` / `prometheus.CounterOpts` that `main.go` sets. -/
structure Opts where
  Namespace : String
  Name : String
  Help : String
  deriving DecidableEq, Repr

/-- Descriptor built from options and variable label names. -/
def Opts.desc (o : Opts) (labelNames : List String) : Desc :=
  ⟨BuildFQName o.Namespace "" o.Name, o.Help, labelNames⟩

/-- A `prometheus.Gauge`: its descriptor and the bits of the value last stored. -/
structure Gauge where
  desc : Desc
  val : float64
  deriving DecidableEq, Repr

/-- The library constructor `prometheus.NewGauge`: a gauge with value 0. -/
def NewGauge (o : Opts) : Gauge := ⟨o.desc [], float64.zero⟩

/-- The method `Gauge.Set`. -/
def Gauge.Set (g : Gauge) (v : float64) : Gauge := { g with val := v }

/-- A `prometheus.Counter`: its descriptor and its count. The count is an
unbounded natural number; the representation chosen by the library is not
modelled. -/
structure Counter where
  desc : Desc
  val : Nat
  deriving DecidableEq, Repr

/-- The library constructor `prometheus.NewCounter`: a counter at 0. -/
def NewCounter (o : Opts) : Counter := ⟨o.desc [], 0⟩

/-- The method `Counter.Inc`. -/
def Counter.Inc (c : Counter) : Counter := { c with val := c.val + 1 }

/-- The method `Counter.Add`, for a non-negative integral argument. -/
def Counter.Add (c : Counter) (n : Nat) : Counter := { c with val := c.val + n }

/-- Label values of one child of the exchange-rate vector, in the order of the
variable labels: `(currency, class)`. -/
abbrev LabelValues := String × String

/-- Value bound to key `k` in an association list, if any. -/
def lookup (k : LabelValues) : List (LabelValues × float64) → Option float64
  | [] => none
  | (k0, v0) :: t => if k0 = k then some v0 else lookup k t

/-- Store `v` under key `k`: overwrite the child if it exists, else create it. -/
def store (k : LabelValues) (v : float64) :
    List (LabelValues × float64) → List (LabelValues × float64)
  | [] => [(k, v)]
  | (k0, v0) :: t => if k0 = k then (k0, v) :: t else (k0, v0) :: store k v t

/-- A `prometheus.GaugeVec` with the two variable labels of `main.go`: its
descriptor and its children, one per tuple of label values. -/
structure GaugeVec where
  desc : Desc
  metrics : List (LabelValues × float64)
  deriving DecidableEq, Repr

/-- The library constructor `prometheus.NewGaugeVec`: a vector without children. -/
def NewGaugeVec (o : Opts) (labelNames : List String) : GaugeVec :=
  ⟨o.desc labelNames, []⟩

/-- The call chain `v.With(prometheus.Labels{"currency": currency, "class": cls}).Set(val)`. -/
def GaugeVec.WithSet (v : GaugeVec) (currency cls : String) (val : float64) : GaugeVec :=
  { v with metrics := store (currency, cls) val v.metrics }

/-- Value of the child with the given label values, if that child exists. -/
def GaugeVec.get (v : GaugeVec) (currency cls : String) : Option float64 :=
  lookup (currency, cls) v.metrics

/-- Label values of the children of a vector. -/
def GaugeVec.keys (v : GaugeVec) : List LabelValues := v.metrics.map Prod.fst

/-- Value carried by an emitted sample. -/
inductive SampleValue where
  | gauge (v : float64)
  | counter (n : Nat)
  deriving DecidableEq, Repr

/-- What one collected `prometheus.Metric` writes: metric name, label pairs, value. -/
structure Sample where
  name : String
  labels : List (String × String)
  value : SampleValue
  deriving DecidableEq, Repr

/-- The method `Gauge.Describe`. -/
def Gauge.Describe (g : Gauge) : List Desc := [g.desc]

/-- The method `Counter.Describe`. -/
def Counter.Describe (c : Counter) : List Desc := [c.desc]

/-- The method `GaugeVec.Describe`. -/
def GaugeVec.Describe (v : GaugeVec) : List Desc := [v.desc]

/-- The method `Gauge.Collect`. -/
def Gauge.Collect (g : Gauge) : List Sample := [⟨g.desc.fqName, [], .gauge g.val⟩]

/-- The method `Counter.Collect`. -/
def Counter.Collect (c : Counter) : List Sample := [⟨c.desc.fqName, [], .counter c.val⟩]

/-- Sample of one child of a vector: the variable label names paired with the
child's label values. -/
def GaugeVec.sample (v : GaugeVec) (kv : LabelValues × float64) : Sample :=
  ⟨v.desc.fqName, v.desc.variableLabels.zip [kv.1.1, kv.1.2], .gauge kv.2⟩

/-- The method `GaugeVec.Collect`: one sample per child. -/
def GaugeVec.Collect (v : GaugeVec) : List Sample := v.metrics.map v.sample

/-! ## `main.go` -/

/-- The constant `namespace`. -/
def namespaceName : String := "bitcoin"

/-- The constant `apiEndpoint`. -/
def apiEndpoint : String := "https://blockchain.info/ticker"

/-- The metric fields of `type exporter struct`. -/
structure exporter where
  up : Gauge
  totalScrapes : Counter
  exchangeRate : GaugeVec
  deriving DecidableEq, Repr

/-- The element type of the map `prices` declared in `scrape`. -/
structure price where
  LTP : float64
  Ask : float64
  Bid : float64
  deriving DecidableEq, Repr

/-- An `*http.Response` as `scrape` uses it: `Body` is the outcome of
`json.NewDecoder(resp.Body).Decode(&prices)`, the decode error or the decoded
map as the list of its entries in `range` order. `StatusCode` is the HTTP
status, which `client.Get` reports without turning it into an error. -/
structure Response where
  StatusCode : Int
  Body : Except String (List (String × price))

/-- Result of `e.client.Get(apiEndpoint)`: a transport error or a response. -/
abbrev GetResult := Except String Response

/-- Body of the loop `for currency, price := range prices` in `scrape`. -/
def setRates (v : GaugeVec) (cp : String × price) : GaugeVec :=
  ((v.WithSet cp.1 "ltp" cp.2.LTP).WithSet cp.1 "ask" cp.2.Ask).WithSet cp.1 "bid" cp.2.Bid

/-- The method `exporter.scrape`. -/
def scrape (e : exporter) (get : GetResult) : exporter :=
  match get with
  | .error _ => { e with up := e.up.Set float64.zero }
  | .ok resp =>
    match resp.Body with
    | .error _ => { e with up := e.up.Set float64.zero }
    | .ok prices =>
      let e1 := { e with totalScrapes := e.totalScrapes.Inc }
      let e2 := { e1 with up := e1.up.Set float64.one }
      { e2 with exchangeRate := prices.foldl setRates e2.exchangeRate }

/-- The method `exporter.Describe`: the descriptors sent on the channel, and the
exporter after the call. -/
def Describe (e : exporter) : exporter × List Desc :=
  (e, e.up.Describe ++ e.totalScrapes.Describe ++ e.exchangeRate.Describe)

/-- The method `exporter.Collect`: the exporter after the call and the samples
sent on the channel. -/
def Collect (e : exporter) (get : GetResult) : exporter × List Sample :=
  let e1 := scrape e get
  (e1, e1.up.Collect ++ e1.totalScrapes.Collect ++ e1.exchangeRate.Collect)

/-- The function `newExporter`. -/
def newExporter : exporter :=
  let e : exporter :=
    { up := NewGauge
        ⟨namespaceName, "up", "Was the last scrape of Blockchain Exchange Rates API successful"⟩
      totalScrapes := NewCounter
        ⟨namespaceName, "exporter_total_scrapes",
          "Current total Blockchain Exchange Rates API scrapes"⟩
      exchangeRate := NewGaugeVec
        ⟨namespaceName, "exchange_rate",
          "Exchange rate retrieved by Blockchain Exchange Rates API"⟩
        ["currency", "class"] }
  let e := { e with up := e.up.Set float64.zero }
  { e with totalScrapes := e.totalScrapes.Add 0 }

/-! ## Sequences of calls -/

/-- Whether a fetch takes the success path of `scrape`: `Get` returned a
response and its body decoded. -/
def succeeded : GetResult → Bool
  | .ok ⟨_, .ok _⟩ => true
  | _ => false

/-- The exporter after a sequence of `Collect` calls, one per fetch result. -/
def collects (e : exporter) (gets : List GetResult) : exporter :=
  gets.foldl (fun s g => (Collect s g).1) e

/-- A call made by the registry on the exporter. -/
inductive Call where
  | describe
  | collect (get : GetResult)

/-- The exporter after one call. -/
def Call.apply (e : exporter) : Call → exporter
  | .describe => (Describe e).1
  | .collect g => (Collect e g).1

/-- The exporter after a sequence of calls. -/
def run (e : exporter) (calls : List Call) : exporter :=
  calls.foldl Call.apply e

/-- The descriptors emitted by the `Describe` calls of a sequence of calls, in order. -/
def described (e : exporter) : List Call → List (List Desc)
  | [] => []
  | .describe :: cs => (Describe e).2 :: described (Describe e).1 cs
  | .collect g :: cs => described (Collect e g).1 cs

/-- Whether a call is a `Collect`. -/
def Call.isCollect : Call → Bool
  | .describe => false
  | .collect _ => true

/-- Whether a status code is in the 2xx class. -/
def is2xx (status : Int) : Bool := decide (200 ≤ status ∧ status < 300)

/-- The exporter carries the three descriptors that `newExporter` gives it. The
descriptors are fixed at construction; the gauge value, the count and the
children of the vector are unconstrained. -/
def exporter.hasSchema (e : exporter) : Prop :=
  e.up.desc = newExporter.up.desc ∧
  e.totalScrapes.desc = newExporter.totalScrapes.desc ∧
  e.exchangeRate.desc = newExporter.exchangeRate.desc

instance (e : exporter) : Decidable e.hasSchema := by
  unfold exporter.hasSchema
  infer_instance

/-- The sample of the up gauge with value `v`. -/
def upSample (v : float64) : Sample := ⟨"bitcoin_up", [], .gauge v⟩

/-- The sample of the scrape counter with count `n`. -/
def totalScrapesSample (n : Nat) : Sample := ⟨"bitcoin_exporter_total_scrapes", [], .counter n⟩

/-- The sample `bitcoin_exchange_rate` with labels `currency`, `class` and value `v`. -/
def exchangeRateSample (currency cls : String) (v : float64) : Sample :=
  ⟨"bitcoin_exchange_rate", [("currency", currency), ("class", cls)], .gauge v⟩

/-- The three descriptors of the exporter built by `newExporter`. -/
def descriptors : List Desc :=
  [⟨"bitcoin_up", "Was the last scrape of Blockchain Exchange Rates API successful", []⟩,
   ⟨"bitcoin_exporter_total_scrapes", "Current total Blockchain Exchange Rates API scrapes", []⟩,
   ⟨"bitcoin_exchange_rate", "Exchange rate retrieved by Blockchain Exchange Rates API",
     ["currency", "class"]⟩]

/-- In a vector, a currency has the three classes ltp, ask, bid and no other
class, or it has no child at all. -/
def GaugeVec.complete (v : GaugeVec) : Prop :=
  ∀ c : String,
    (∀ cls, v.get c cls = none) ∨
    ((v.get c "ltp").isSome ∧ (v.get c "ask").isSome ∧ (v.get c "bid").isSome ∧
      ∀ cls, (v.get c cls).isSome → cls = "ltp" ∨ cls = "ask" ∨ cls = "bid")

/-! ## Concrete data -/

/-- The record `USD: (50000.1, 50010.0, 49990.0)` as `float64` bit patterns. -/
def usdPrice : price :=
  ⟨⟨4677104775000699699⟩, ⟨4677106135646339072⟩, ⟨4677103386867269632⟩⟩

/-- A second USD record `(51000.5, 51010.25, 50990.75)`. -/
def usdPrice2 : price :=
  ⟨⟨4677242268929753088⟩, ⟨4677243608959549440⟩, ⟨4677240928899956736⟩⟩

/-- A EUR record `(43000.0, 43010.5, 42990.5)`. -/
def eurPrice : price :=
  ⟨⟨4676142688582500352⟩, ⟨4676144131691511808⟩, ⟨4676141382912442368⟩⟩

/-- A response with status 200 whose body decodes to the given map. -/
def okResponse (prices : List (String × price)) : GetResult :=
  .ok ⟨200, .ok prices⟩

/-! ## Lemmas on the children of a gauge vector -/

theorem lookup_store (k k1 : LabelValues) (v : float64) (m : List (LabelValues × float64)) :
    lookup k1 (store k v m) = if k = k1 then some v else lookup k1 m := by
  induction m with
  | nil => simp [store, lookup]
  | cons h t ih =>
    obtain ⟨k0, v0⟩ := h
    by_cases h0 : k0 = k
    · subst h0
      by_cases h1 : k0 = k1 <;> simp [store, lookup, h1]
    · by_cases h1 : k0 = k1
      · subst h1
        have h2 : ¬ k = k0 := fun h => h0 h.symm
        simp [store, lookup, h0, h2]
      · simp [store, lookup, h0, h1, ih]

theorem mem_keys_store (k k1 : LabelValues) (v : float64) (m : List (LabelValues × float64)) :
    k1 ∈ (store k v m).map Prod.fst ↔ k1 = k ∨ k1 ∈ m.map Prod.fst := by
  induction m with
  | nil => simp [store]
  | cons h t ih =>
    obtain ⟨k0, v0⟩ := h
    by_cases h0 : k0 = k
    · subst h0
      simp [store]
    · simp only [store, h0, if_false, List.map_cons, List.mem_cons, ih]
      tauto

theorem nodup_keys_store (k : LabelValues) (v : float64) (m : List (LabelValues × float64))
    (h : (m.map Prod.fst).Nodup) : ((store k v m).map Prod.fst).Nodup := by
  induction m with
  | nil => simp [store]
  | cons hd t ih =>
    obtain ⟨k0, v0⟩ := hd
    simp only [List.map_cons, List.nodup_cons] at h
    by_cases h0 : k0 = k
    · subst h0
      simpa [store] using h
    · have hs : store k v ((k0, v0) :: t) = (k0, v0) :: store k v t := by simp [store, h0]
      rw [hs, List.map_cons, List.nodup_cons, mem_keys_store]
      exact ⟨fun hh => hh.elim h0 h.1, ih h.2⟩

theorem lookup_eq_none_iff (k : LabelValues) (m : List (LabelValues × float64)) :
    lookup k m = none ↔ k ∉ m.map Prod.fst := by
  induction m with
  | nil => simp [lookup]
  | cons hd t ih =>
    obtain ⟨k0, v0⟩ := hd
    by_cases h0 : k0 = k
    · subst h0
      simp [lookup]
    · have h1 : ¬ k = k0 := fun h => h0 h.symm
      simp [lookup, h0, h1, ih]

theorem mem_of_lookup_eq_some (k : LabelValues) (v : float64)
    (m : List (LabelValues × float64)) (h : lookup k m = some v) : (k, v) ∈ m := by
  induction m with
  | nil => simp [lookup] at h
  | cons hd t ih =>
    obtain ⟨k0, v0⟩ := hd
    by_cases h0 : k0 = k
    · subst h0
      simp [lookup] at h
      simp [h]
    · simp only [lookup, h0, if_false] at h
      exact List.mem_cons_of_mem _ (ih h)

theorem lookup_eq_some_of_mem (k : LabelValues) (v : float64)
    (m : List (LabelValues × float64)) (hn : (m.map Prod.fst).Nodup) (h : (k, v) ∈ m) :
    lookup k m = some v := by
  induction m with
  | nil => simp at h
  | cons hd t ih =>
    obtain ⟨k0, v0⟩ := hd
    simp only [List.map_cons, List.nodup_cons] at hn
    rcases List.mem_cons.mp h with h1 | h1
    · cases h1
      simp [lookup]
    · have h2 : k ∈ t.map Prod.fst := List.mem_map_of_mem Prod.fst h1
      have h0 : ¬ k0 = k := fun hh => hn.1 (hh ▸ h2)
      simp only [lookup, h0, if_false]
      exact ih hn.2 h1

theorem nodup_of_nodup_keys (m : List (LabelValues × float64))
    (hn : (m.map Prod.fst).Nodup) : m.Nodup :=
  List.Nodup.of_map Prod.fst hn

theorem perm_of_lookup_eq (m1 m2 : List (LabelValues × float64))
    (h1 : (m1.map Prod.fst).Nodup) (h2 : (m2.map Prod.fst).Nodup)
    (h : ∀ k, lookup k m1 = lookup k m2) : m1.Perm m2 := by
  rw [List.perm_ext_iff_of_nodup (nodup_of_nodup_keys m1 h1) (nodup_of_nodup_keys m2 h2)]
  rintro ⟨k, v⟩
  constructor
  · intro hm
    exact mem_of_lookup_eq_some k v m2 ((h k) ▸ lookup_eq_some_of_mem k v m1 h1 hm)
  · intro hm
    exact mem_of_lookup_eq_some k v m1 ((h k).symm ▸ lookup_eq_some_of_mem k v m2 h2 hm)

/-! ## Lemmas on the loop of `scrape` -/

theorem get_WithSet (v : GaugeVec) (c cls c1 cls1 : String) (x : float64) :
    (v.WithSet c cls x).get c1 cls1
      = if c = c1 ∧ cls = cls1 then some x else v.get c1 cls1 := by
  simp [GaugeVec.get, GaugeVec.WithSet, lookup_store, Prod.ext_iff]

theorem get_setRates (v : GaugeVec) (cp : String × price) (c cls : String) :
    (setRates v cp).get c cls =
      if cp.1 = c ∧ cls = "bid" then some cp.2.Bid
      else if cp.1 = c ∧ cls = "ask" then some cp.2.Ask
      else if cp.1 = c ∧ cls = "ltp" then some cp.2.LTP
      else v.get c cls := by
  simp only [setRates, get_WithSet]
  by_cases h : cp.1 = c <;> simp [h, eq_comm]

theorem desc_setRates (v : GaugeVec) (cp : String × price) : (setRates v cp).desc = v.desc := rfl

theorem desc_foldl_setRates (prices : List (String × price)) (v : GaugeVec) :
    (prices.foldl setRates v).desc = v.desc := by
  induction prices generalizing v with
  | nil => rfl
  | cons hd t ih => simp [List.foldl, ih, desc_setRates]

theorem nodup_keys_setRates (v : GaugeVec) (cp : String × price) (h : v.keys.Nodup) :
    (setRates v cp).keys.Nodup := by
  simp only [setRates, GaugeVec.WithSet, GaugeVec.keys] at *
  exact nodup_keys_store _ _ _ (nodup_keys_store _ _ _ (nodup_keys_store _ _ _ h))

theorem nodup_keys_foldl_setRates (prices : List (String × price)) (v : GaugeVec)
    (h : v.keys.Nodup) : (prices.foldl setRates v).keys.Nodup := by
  induction prices generalizing v with
  | nil => exact h
  | cons hd t ih => exact ih _ (nodup_keys_setRates v hd h)

/-- Frame of the loop: a currency that is not a key of `prices` keeps every entry. -/
theorem get_foldl_setRates_of_not_mem (prices : List (String × price)) (v : GaugeVec)
    (c cls : String) (h : c ∉ prices.map Prod.fst) :
    (prices.foldl setRates v).get c cls = v.get c cls := by
  induction prices generalizing v with
  | nil => rfl
  | cons hd t ih =>
    simp only [List.map_cons, List.mem_cons, not_or] at h
    have h0 : ¬ hd.1 = c := fun hh => h.1 hh.symm
    simp only [List.foldl]
    rw [ih _ h.2, get_setRates]
    simp [h0]

/-- Frame of the loop: an entry of another class than ltp, ask, bid is kept. -/
theorem get_foldl_setRates_of_class (prices : List (String × price)) (v : GaugeVec)
    (c cls : String) (h1 : cls ≠ "ltp") (h2 : cls ≠ "ask") (h3 : cls ≠ "bid") :
    (prices.foldl setRates v).get c cls = v.get c cls := by
  induction prices generalizing v with
  | nil => rfl
  | cons hd t ih =>
    simp only [List.foldl]
    rw [ih, get_setRates]
    simp [h1, h2, h3]

/-- Effect of the loop on a currency of `prices`, whose keys are distinct. -/
theorem get_foldl_setRates_of_mem (prices : List (String × price)) (v : GaugeVec)
    (c : String) (p : price) (hn : (prices.map Prod.fst).Nodup) (hm : (c, p) ∈ prices) :
    (prices.foldl setRates v).get c "ltp" = some p.LTP ∧
    (prices.foldl setRates v).get c "ask" = some p.Ask ∧
    (prices.foldl setRates v).get c "bid" = some p.Bid := by
  induction prices generalizing v with
  | nil => simp at hm
  | cons hd t ih =>
    simp only [List.map_cons, List.nodup_cons] at hn
    simp only [List.foldl]
    rcases List.mem_cons.mp hm with h1 | h1
    · subst h1
      have hc : c ∉ t.map Prod.fst := hn.1
      simp [get_foldl_setRates_of_not_mem t _ c _ hc, get_setRates]
    · exact ih _ hn.2 h1

theorem mem_store_of_ne (k k1 : LabelValues) (v x : float64)
    (m : List (LabelValues × float64)) (h : k1 ≠ k) :
    (k1, x) ∈ store k v m ↔ (k1, x) ∈ m := by
  induction m with
  | nil =>
    simp only [store, List.mem_singleton, List.not_mem_nil, iff_false, Prod.mk.injEq, not_and]
    exact fun hh => absurd hh h
  | cons hd t ih =>
    obtain ⟨k0, v0⟩ := hd
    by_cases h0 : k0 = k
    · subst h0
      have h2 : ¬ k1 = k0 := h
      simp [store, h2]
    · have hs : store k v ((k0, v0) :: t) = (k0, v0) :: store k v t := by simp [store, h0]
      rw [hs, List.mem_cons, List.mem_cons, ih]

theorem mem_setRates_of_ne (v : GaugeVec) (cp : String × price) (c cls : String) (x : float64)
    (h : c ≠ cp.1) :
    ((c, cls), x) ∈ (setRates v cp).metrics ↔ ((c, cls), x) ∈ v.metrics := by
  have hk : ∀ k : String, ((c, cls) : LabelValues) ≠ (cp.1, k) := fun k hh => h (congrArg Prod.fst hh)
  simp only [setRates, GaugeVec.WithSet]
  rw [mem_store_of_ne _ _ _ _ _ (hk _), mem_store_of_ne _ _ _ _ _ (hk _),
    mem_store_of_ne _ _ _ _ _ (hk _)]

theorem mem_foldl_setRates_of_not_mem (prices : List (String × price)) (v : GaugeVec)
    (c cls : String) (x : float64) (h : c ∉ prices.map Prod.fst) :
    ((c, cls), x) ∈ (prices.foldl setRates v).metrics ↔ ((c, cls), x) ∈ v.metrics := by
  induction prices generalizing v with
  | nil => rfl
  | cons hd t ih =>
    simp only [List.map_cons, List.mem_cons, not_or] at h
    simp only [List.foldl]
    rw [ih _ h.2, mem_setRates_of_ne v hd c cls x h.1]

/-- After the loop a currency of `prices` has its three classes. -/
theorem isSome_get_foldl_setRates (prices : List (String × price)) (v : GaugeVec)
    (c : String) (hm : c ∈ prices.map Prod.fst) :
    ((prices.foldl setRates v).get c "ltp").isSome ∧
    ((prices.foldl setRates v).get c "ask").isSome ∧
    ((prices.foldl setRates v).get c "bid").isSome := by
  induction prices generalizing v with
  | nil => simp at hm
  | cons hd t ih =>
    simp only [List.foldl]
    by_cases ht : c ∈ t.map Prod.fst
    · exact ih _ ht
    · have hc : hd.1 = c := by
        simp only [List.map_cons, List.mem_cons] at hm
        rcases hm with h1 | h1
        · exact h1.symm
        · exact absurd h1 ht
      simp [get_foldl_setRates_of_not_mem t _ c _ ht, get_setRates, hc]

theorem complete_foldl_setRates (prices : List (String × price)) (v : GaugeVec)
    (h : v.complete) : (prices.foldl setRates v).complete := by
  intro c
  by_cases hm : c ∈ prices.map Prod.fst
  · right
    obtain ⟨h1, h2, h3⟩ := isSome_get_foldl_setRates prices v c hm
    refine ⟨h1, h2, h3, ?_⟩
    intro cls hs
    by_contra hne
    simp only [not_or] at hne
    rw [get_foldl_setRates_of_class prices v c cls hne.1 hne.2.1 hne.2.2] at hs
    rcases h c with h0 | h0
    · simp [h0 cls] at hs
    · exact absurd (h0.2.2.2 cls hs) (by simp [hne.1, hne.2.1, hne.2.2])
  · simp only [get_foldl_setRates_of_not_mem prices v c _ hm]
    exact h c

/-! ## Lemmas on `scrape`, `Collect` and sequences of calls -/

theorem scrape_ok (e : exporter) (status : Int) (prices : List (String × price)) :
    scrape e (.ok ⟨status, .ok prices⟩) =
      { up := e.up.Set float64.one
        totalScrapes := e.totalScrapes.Inc
        exchangeRate := prices.foldl setRates e.exchangeRate } := rfl

theorem scrape_of_not_succeeded (e : exporter) (get : GetResult) (h : succeeded get = false) :
    scrape e get = { e with up := e.up.Set float64.zero } := by
  match get, h with
  | .error _, _ => rfl
  | .ok ⟨_, .error _⟩, _ => rfl

theorem hasSchema_scrape (e : exporter) (get : GetResult) (h : e.hasSchema) :
    (scrape e get).hasSchema := by
  match get with
  | .error _ => exact h
  | .ok ⟨_, .error _⟩ => exact h
  | .ok ⟨_, .ok prices⟩ =>
    refine ⟨h.1, h.2.1, ?_⟩
    rw [scrape_ok]
    exact (desc_foldl_setRates prices e.exchangeRate).trans h.2.2

theorem nodup_keys_scrape (e : exporter) (get : GetResult) (h : e.exchangeRate.keys.Nodup) :
    (scrape e get).exchangeRate.keys.Nodup := by
  match get with
  | .error _ => exact h
  | .ok ⟨_, .error _⟩ => exact h
  | .ok ⟨_, .ok prices⟩ => exact nodup_keys_foldl_setRates prices e.exchangeRate h

theorem complete_scrape (e : exporter) (get : GetResult) (h : e.exchangeRate.complete) :
    (scrape e get).exchangeRate.complete := by
  match get with
  | .error _ => exact h
  | .ok ⟨_, .error _⟩ => exact h
  | .ok ⟨_, .ok prices⟩ => exact complete_foldl_setRates prices e.exchangeRate h

/-- The samples of `Collect` written out, for an exporter with the descriptors
of `newExporter`. -/
theorem Collect_samples (e : exporter) (get : GetResult) (h : e.hasSchema) :
    (Collect e get).2 =
      upSample (scrape e get).up.val ::
      totalScrapesSample (scrape e get).totalScrapes.val ::
      (scrape e get).exchangeRate.metrics.map
        (fun kv => exchangeRateSample kv.1.1 kv.1.2 kv.2) := by
  obtain ⟨h1, h2, h3⟩ := hasSchema_scrape e get h
  simp only [Collect, Gauge.Collect, Counter.Collect, GaugeVec.Collect, h1, h2,
    List.singleton_append, List.cons_append, List.nil_append]
  refine congrArg₂ _ rfl (congrArg₂ _ rfl ?_)
  apply List.map_congr_left
  intro kv _
  simp only [GaugeVec.sample, h3]
  rfl

theorem run_append (e : exporter) (cs1 cs2 : List Call) :
    run e (cs1 ++ cs2) = run (run e cs1) cs2 := by
  simp [run, List.foldl_append]

theorem hasSchema_run (e : exporter) (calls : List Call) (h : e.hasSchema) :
    (run e calls).hasSchema := by
  induction calls generalizing e with
  | nil => exact h
  | cons c cs ih =>
    cases c with
    | describe => exact ih e h
    | collect g => exact ih _ (hasSchema_scrape e g h)

theorem complete_run (e : exporter) (calls : List Call) (h : e.exchangeRate.complete) :
    (run e calls).exchangeRate.complete := by
  induction calls generalizing e with
  | nil => exact h
  | cons c cs ih =>
    cases c with
    | describe => exact ih e h
    | collect g => exact ih _ (complete_scrape e g h)

theorem totalScrapes_collects (e : exporter) (gets : List GetResult) :
    (collects e gets).totalScrapes.val = e.totalScrapes.val + gets.countP succeeded := by
  induction gets generalizing e with
  | nil => simp [collects]
  | cons g gs ih =>
    have hstep : collects e (g :: gs) = collects (scrape e g) gs := rfl
    rw [hstep, ih]
    cases hs : succeeded g
    · rw [scrape_of_not_succeeded e g hs]
      simp [List.countP_cons, hs]
    · match g, hs with
      | .ok ⟨_, .ok prices⟩, _ =>
        simp [scrape_ok, Counter.Inc, List.countP_cons, succeeded]
        omega

theorem run_filter_isCollect (e : exporter) (calls : List Call) :
    run e calls = run e (calls.filter Call.isCollect) := by
  induction calls generalizing e with
  | nil => rfl
  | cons c cs ih =>
    cases c with
    | describe => exact ih e
    | collect g => exact ih (Collect e g).1

theorem Describe_of_hasSchema (e : exporter) (h : e.hasSchema) : (Describe e).2 = descriptors := by
  obtain ⟨h1, h2, h3⟩ := h
  simp only [Describe, Gauge.Describe, Counter.Describe, GaugeVec.Describe, h1, h2, h3]
  decide

theorem Describe_Collect (e : exporter) (g : GetResult) :
    (Describe (Collect e g).1).2 = (Describe e).2 := by
  match g with
  | .error _ => rfl
  | .ok ⟨_, .error _⟩ => rfl
  | .ok ⟨_, .ok prices⟩ =>
    simp only [Describe, Collect, scrape_ok, Gauge.Describe, Counter.Describe,
      GaugeVec.Describe, desc_foldl_setRates]
    rfl

theorem hasSchema_newExporter : newExporter.hasSchema := ⟨rfl, rfl, rfl⟩

theorem described_of_hasSchema (e : exporter) (calls : List Call) (h : e.hasSchema) :
    described e calls = List.replicate (calls.countP (fun c => !c.isCollect)) descriptors := by
  induction calls generalizing e with
  | nil => rfl
  | cons c cs ih =>
    cases c with
    | describe =>
      simp only [described, List.countP_cons, Call.isCollect, Bool.not_false, if_true,
        List.replicate_succ]
      rw [Describe_of_hasSchema e h]
      exact congrArg _ (ih e h)
    | collect g =>
      simp only [described, List.countP_cons, Call.isCollect, Bool.not_true]
      exact ih _ (hasSchema_scrape e g h)

theorem exchangeRateSample_injective (c cls c1 cls1 : String) (v v1 : float64)
    (h : exchangeRateSample c cls v = exchangeRateSample c1 cls1 v1) :
    c = c1 ∧ cls = cls1 ∧ v = v1 := by
  simp only [exchangeRateSample, Sample.mk.injEq, List.cons.injEq, Prod.mk.injEq, true_and,
    and_true, SampleValue.gauge.injEq] at h
  exact ⟨h.1.1, h.1.2, h.2⟩

theorem mem_map_exchangeRateSample (m : List (LabelValues × float64)) (c cls : String)
    (v : float64) :
    exchangeRateSample c cls v ∈ m.map (fun kv => exchangeRateSample kv.1.1 kv.1.2 kv.2)
      ↔ ((c, cls), v) ∈ m := by
  constructor
  · intro h
    obtain ⟨⟨⟨c1, cls1⟩, v1⟩, hm, he⟩ := List.mem_map.mp h
    obtain ⟨h1, h2, h3⟩ := exchangeRateSample_injective _ _ _ _ _ _ he
    subst h1 h2 h3
    exact hm
  · intro h
    exact List.mem_map.mpr ⟨((c, cls), v), h, rfl⟩

theorem exchangeRateSample_ne_upSample (c cls : String) (v x : float64) :
    exchangeRateSample c cls v ≠ upSample x := by
  intro h
  have hn : ¬ (exchangeRateSample "" "" ⟨0⟩).name = (upSample ⟨0⟩).name := by decide
  have h1 := congrArg Sample.name h
  exact hn h1

theorem exchangeRateSample_ne_totalScrapesSample (c cls : String) (v : float64) (n : Nat) :
    exchangeRateSample c cls v ≠ totalScrapesSample n := by
  intro h
  have hn : ¬ (exchangeRateSample "" "" ⟨0⟩).name = (totalScrapesSample 0).name := by decide
  have h1 := congrArg Sample.name h
  exact hn h1

theorem upSample_ne_totalScrapesSample (x : float64) (n : Nat) :
    upSample x ≠ totalScrapesSample n := by
  intro h
  have hn : ¬ (upSample ⟨0⟩).name = (totalScrapesSample 0).name := by decide
  have h1 := congrArg Sample.name h
  exact hn h1

theorem nodup_map_exchangeRateSample (m : List (LabelValues × float64)) (h : m.Nodup) :
    (m.map (fun kv => exchangeRateSample kv.1.1 kv.1.2 kv.2)).Nodup := by
  apply List.Nodup.map _ h
  rintro ⟨⟨c, cls⟩, v⟩ ⟨⟨c1, cls1⟩, v1⟩ he
  obtain ⟨h1, h2, h3⟩ := exchangeRateSample_injective _ _ _ _ _ _ he
  subst h1 h2 h3
  rfl

/-- The loop of `scrape` over two orders of the same record gives the same
value to every key. -/
theorem get_foldl_setRates_perm (ps1 ps2 : List (String × price)) (v : GaugeVec)
    (hp : ps1.Perm ps2) (hn : (ps1.map Prod.fst).Nodup) (c cls : String) :
    (ps1.foldl setRates v).get c cls = (ps2.foldl setRates v).get c cls := by
  have hn2 : (ps2.map Prod.fst).Nodup := (hp.map Prod.fst).nodup_iff.mp hn
  by_cases hm : c ∈ ps1.map Prod.fst
  · obtain ⟨⟨c1, p⟩, hcp, hc⟩ := List.mem_map.mp hm
    simp only at hc
    subst hc
    have hcp2 : (c1, p) ∈ ps2 := hp.subset hcp
    obtain ⟨a1, a2, a3⟩ := get_foldl_setRates_of_mem ps1 v c1 p hn hcp
    obtain ⟨b1, b2, b3⟩ := get_foldl_setRates_of_mem ps2 v c1 p hn2 hcp2
    by_cases h1 : cls = "ltp"
    · rw [h1, a1, b1]
    · by_cases h2 : cls = "ask"
      · rw [h2, a2, b2]
      · by_cases h3 : cls = "bid"
        · rw [h3, a3, b3]
        · rw [get_foldl_setRates_of_class ps1 v c1 cls h1 h2 h3,
            get_foldl_setRates_of_class ps2 v c1 cls h1 h2 h3]
  · have hm2 : c ∉ ps2.map Prod.fst := fun hh => hm ((hp.map Prod.fst).symm.subset hh)
    rw [get_foldl_setRates_of_not_mem ps1 v c cls hm,
      get_foldl_setRates_of_not_mem ps2 v c cls hm2]

/-! ## The claims -/

/-- C1: for every exporter state and every fetch that returns a response whose
body decodes to a price record containing currency `c` with values
`(L, A, B)`, the samples emitted by `Collect` contain
`exchange_rate` for `(c, ltp)` with value `L`, for `(c, ask)` with value `A`,
for `(c, bid)` with value `B`, and `up` with value 1. -/
theorem collect_success_emits_rates (e : exporter) (status : Int)
    (prices : List (String × price)) (c : String) (L A B : float64)
    (hs : e.hasSchema) (hn : (prices.map Prod.fst).Nodup) (hm : (c, ⟨L, A, B⟩) ∈ prices) :
    exchangeRateSample c "ltp" L ∈ (Collect e (.ok ⟨status, .ok prices⟩)).2 ∧
    exchangeRateSample c "ask" A ∈ (Collect e (.ok ⟨status, .ok prices⟩)).2 ∧
    exchangeRateSample c "bid" B ∈ (Collect e (.ok ⟨status, .ok prices⟩)).2 ∧
    upSample float64.one ∈ (Collect e (.ok ⟨status, .ok prices⟩)).2 := by
  obtain ⟨h1, h2, h3⟩ := get_foldl_setRates_of_mem prices e.exchangeRate c ⟨L, A, B⟩ hn hm
  rw [Collect_samples e _ hs, scrape_ok]
  refine ⟨?_, ?_, ?_, ?_⟩
  · exact List.mem_cons_of_mem _ (List.mem_cons_of_mem _
      ((mem_map_exchangeRateSample _ _ _ _).mpr (mem_of_lookup_eq_some _ _ _ h1)))
  · exact List.mem_cons_of_mem _ (List.mem_cons_of_mem _
      ((mem_map_exchangeRateSample _ _ _ _).mpr (mem_of_lookup_eq_some _ _ _ h2)))
  · exact List.mem_cons_of_mem _ (List.mem_cons_of_mem _
      ((mem_map_exchangeRateSample _ _ _ _).mpr (mem_of_lookup_eq_some _ _ _ h3)))
  · exact List.mem_cons_self _ _

/-- Witness of C1: the record `USD: (50000.1, 50010.0, 49990.0)` on a fresh
exporter; the five samples emitted are listed in full. -/
theorem collect_success_emits_rates_witness :
    (newExporter.hasSchema ∧ ([("USD", usdPrice)].map Prod.fst).Nodup ∧
      (("USD", usdPrice) : String × price) ∈ [("USD", usdPrice)]) ∧
    (exchangeRateSample "USD" "ltp" ⟨4677104775000699699⟩
        ∈ (Collect newExporter (okResponse [("USD", usdPrice)])).2 ∧
      exchangeRateSample "USD" "ask" ⟨4677106135646339072⟩
        ∈ (Collect newExporter (okResponse [("USD", usdPrice)])).2 ∧
      exchangeRateSample "USD" "bid" ⟨4677103386867269632⟩
        ∈ (Collect newExporter (okResponse [("USD", usdPrice)])).2 ∧
      upSample float64.one ∈ (Collect newExporter (okResponse [("USD", usdPrice)])).2) ∧
    (Collect newExporter (okResponse [("USD", usdPrice)])).2 =
      [upSample float64.one, totalScrapesSample 1,
       exchangeRateSample "USD" "ltp" ⟨4677104775000699699⟩,
       exchangeRateSample "USD" "ask" ⟨4677106135646339072⟩,
       exchangeRateSample "USD" "bid" ⟨4677103386867269632⟩] :=
  ⟨⟨by decide, by decide, by decide⟩,
   collect_success_emits_rates newExporter 200 [("USD", usdPrice)] "USD" _ _ _
     (by decide) (by decide) (by decide),
   by decide⟩

/-- C2: for every exporter state and every fetch that fails (`Get` returns an
error, or the body of the response fails to decode), after `Collect` the up
gauge is 0, and the scrape counter and the exchange-rate vector with all its
entries are what they were before the call. -/
theorem collect_failure_keeps_state (e : exporter) (get : GetResult)
    (h : (∃ msg, get = .error msg) ∨ (∃ status msg, get = .ok ⟨status, .error msg⟩)) :
    (Collect e get).1.up.val = float64.zero ∧
    (Collect e get).1.totalScrapes = e.totalScrapes ∧
    (Collect e get).1.exchangeRate = e.exchangeRate := by
  rcases h with ⟨msg, rfl⟩ | ⟨status, msg, rfl⟩
  · exact ⟨rfl, rfl, rfl⟩
  · exact ⟨rfl, rfl, rfl⟩

/-- Witness of C2: a transport error after a successful scrape of USD. -/
theorem collect_failure_keeps_state_witness :
    (Collect (Collect newExporter (okResponse [("USD", usdPrice)])).1
        (.error "connection refused")).1.up.val = float64.zero ∧
    (Collect (Collect newExporter (okResponse [("USD", usdPrice)])).1
        (.error "connection refused")).1.totalScrapes
      = (Collect newExporter (okResponse [("USD", usdPrice)])).1.totalScrapes ∧
    (Collect (Collect newExporter (okResponse [("USD", usdPrice)])).1
        (.error "connection refused")).1.exchangeRate
      = (Collect newExporter (okResponse [("USD", usdPrice)])).1.exchangeRate :=
  collect_failure_keeps_state (Collect newExporter (okResponse [("USD", usdPrice)])).1
    (.error "connection refused") (Or.inl ⟨"connection refused", rfl⟩)

/-- Example of the second kind of failure: a response with status 200 whose body
does not decode, after a successful scrape of USD. -/
theorem collect_decode_failure_example :
    (Collect (Collect newExporter (okResponse [("USD", usdPrice)])).1
        (.ok ⟨200, .error "unexpected end of JSON input"⟩)).2 =
      [upSample float64.zero, totalScrapesSample 1,
       exchangeRateSample "USD" "ltp" ⟨4677104775000699699⟩,
       exchangeRateSample "USD" "ask" ⟨4677106135646339072⟩,
       exchangeRateSample "USD" "bid" ⟨4677103386867269632⟩] := by
  decide

/-- C3, as stated, fails: a response with status 500 whose body decodes to
`USD: (50000.1, 50010.0, 49990.0)` takes the success path of `scrape` on a
fresh exporter: up is 1, the counter goes from 0 to 1 and the USD entries are
created. -/
theorem non2xx_decodable_counterexample :
    is2xx 500 = false ∧
    (Collect newExporter (.ok ⟨500, .ok [("USD", usdPrice)]⟩)).1.up.val = float64.one ∧
    float64.one ≠ float64.zero ∧
    newExporter.totalScrapes.val = 0 ∧
    (Collect newExporter (.ok ⟨500, .ok [("USD", usdPrice)]⟩)).1.totalScrapes.val = 1 ∧
    newExporter.exchangeRate.get "USD" "ltp" = none ∧
    (Collect newExporter (.ok ⟨500, .ok [("USD", usdPrice)]⟩)).1.exchangeRate.get "USD" "ltp"
      = some ⟨4677104775000699699⟩ ∧
    ¬ ((Collect newExporter (.ok ⟨500, .ok [("USD", usdPrice)]⟩)).1.up.val = float64.zero ∧
       (Collect newExporter (.ok ⟨500, .ok [("USD", usdPrice)]⟩)).1.totalScrapes
         = newExporter.totalScrapes ∧
       (Collect newExporter (.ok ⟨500, .ok [("USD", usdPrice)]⟩)).1.exchangeRate
         = newExporter.exchangeRate) := by
  decide

/-- C3, amended: for every response with a non-2xx status, `Collect` does what
it does for a response with status 200 and the same body, the status code not
being inspected. When the body fails to decode, up is 0 and the scrape counter
and the exchange-rate entries are unchanged; when the body decodes, up is 1,
the counter is one more and the decoded record is folded into the entries. -/
theorem status_code_not_inspected (e : exporter) (status : Int)
    (body : Except String (List (String × price))) (_h : is2xx status = false) :
    Collect e (.ok ⟨status, body⟩) = Collect e (.ok ⟨200, body⟩) ∧
    (∀ msg, body = .error msg →
      (Collect e (.ok ⟨status, body⟩)).1.up.val = float64.zero ∧
      (Collect e (.ok ⟨status, body⟩)).1.totalScrapes = e.totalScrapes ∧
      (Collect e (.ok ⟨status, body⟩)).1.exchangeRate = e.exchangeRate) ∧
    (∀ prices, body = .ok prices →
      (Collect e (.ok ⟨status, body⟩)).1.up.val = float64.one ∧
      (Collect e (.ok ⟨status, body⟩)).1.totalScrapes.val = e.totalScrapes.val + 1 ∧
      (Collect e (.ok ⟨status, body⟩)).1.exchangeRate
        = prices.foldl setRates e.exchangeRate) := by
  refine ⟨?_, ?_, ?_⟩
  · cases body <;> rfl
  · rintro msg rfl
    exact ⟨rfl, rfl, rfl⟩
  · rintro prices rfl
    exact ⟨rfl, rfl, rfl⟩

/-- Witness of amended C3: status 503 with a body that does not decode, after a
successful scrape of USD. -/
theorem status_code_not_inspected_witness :
    is2xx 503 = false ∧
    (Collect (Collect newExporter (okResponse [("USD", usdPrice)])).1
        (.ok ⟨503, .error "invalid character"⟩)).1.up.val = float64.zero ∧
    (Collect (Collect newExporter (okResponse [("USD", usdPrice)])).1
        (.ok ⟨503, .error "invalid character"⟩)).1.totalScrapes
      = (Collect newExporter (okResponse [("USD", usdPrice)])).1.totalScrapes ∧
    (Collect (Collect newExporter (okResponse [("USD", usdPrice)])).1
        (.ok ⟨503, .error "invalid character"⟩)).1.exchangeRate
      = (Collect newExporter (okResponse [("USD", usdPrice)])).1.exchangeRate :=
  ⟨by decide,
   (status_code_not_inspected (Collect newExporter (okResponse [("USD", usdPrice)])).1 503
     (.error "invalid character") (by decide)).2.1 "invalid character" rfl⟩

/-- C4: starting from a new exporter, after any finite sequence of `Collect`
calls the scrape counter equals the number of calls whose fetch succeeded,
whatever the number and the position of the failed ones; and for every state
and every fetch the counter after `Collect` is at least the counter before:
it is one more after a success and the same after a failure. -/
theorem scrape_counter_counts_successes (gets : List GetResult) :
    newExporter.totalScrapes.val = 0 ∧
    (collects newExporter gets).totalScrapes.val = gets.countP succeeded ∧
    gets.countP succeeded + gets.countP (fun g => !succeeded g) = gets.length ∧
    (∀ (e : exporter) (g : GetResult),
      e.totalScrapes.val ≤ (Collect e g).1.totalScrapes.val) ∧
    (∀ (e : exporter) (g : GetResult),
      (Collect e g).1.totalScrapes.val = e.totalScrapes.val + if succeeded g then 1 else 0) := by
  have hstep : ∀ (e : exporter) (g : GetResult),
      (Collect e g).1.totalScrapes.val = e.totalScrapes.val + if succeeded g then 1 else 0 := by
    intro e g
    have h := totalScrapes_collects e [g]
    simpa [collects, List.countP_cons] using h
  refine ⟨rfl, ?_, ?_, ?_, hstep⟩
  · have h := totalScrapes_collects newExporter gets
    have h0 : newExporter.totalScrapes.val = 0 := rfl
    omega
  · have h := List.length_eq_countP_add_countP succeeded gets
    simp only [Bool.not_eq_true, Bool.decide_eq_false] at h
    omega
  · intro e g
    rw [hstep]
    omega

/-- Example for C4: two successes and two failures, interleaved, count 2. -/
theorem scrape_counter_example :
    (collects newExporter
      [.error "connection refused", okResponse [("USD", usdPrice)],
       .ok ⟨200, .error "invalid character"⟩, okResponse [("USD", usdPrice2)]]).totalScrapes.val
      = 2 := by
  decide

/-- C5: for every exporter state and every successful scrape, an exchange-rate
entry `(c, cls)` whose currency `c` is not a key of the decoded record keeps
its value, and stays absent when it was absent; the stored entries with that
currency are the same before and after. -/
theorem scrape_keeps_other_currencies (e : exporter) (status : Int)
    (prices : List (String × price)) (c : String) (h : c ∉ prices.map Prod.fst) :
    (∀ cls, (Collect e (.ok ⟨status, .ok prices⟩)).1.exchangeRate.get c cls
      = e.exchangeRate.get c cls) ∧
    (∀ cls v, ((c, cls), v) ∈ (Collect e (.ok ⟨status, .ok prices⟩)).1.exchangeRate.metrics
      ↔ ((c, cls), v) ∈ e.exchangeRate.metrics) := by
  constructor
  · intro cls
    exact get_foldl_setRates_of_not_mem prices e.exchangeRate c cls h
  · intro cls v
    exact mem_foldl_setRates_of_not_mem prices e.exchangeRate c cls v h

/-- Witness of C5: the first scrape returns USD and EUR, the second only USD.
EUR keeps its first-scrape values, USD has the second-scrape values, the
counter is 2, and a currency never seen (JPY) is absent. -/
theorem scrape_keeps_other_currencies_witness :
    "EUR" ∉ [("USD", usdPrice2)].map Prod.fst ∧
    (Collect (Collect newExporter (okResponse [("USD", usdPrice), ("EUR", eurPrice)])).1
        (okResponse [("USD", usdPrice2)])).1.exchangeRate.get "EUR" "ltp"
      = (Collect newExporter
          (okResponse [("USD", usdPrice), ("EUR", eurPrice)])).1.exchangeRate.get "EUR" "ltp" ∧
    (Collect newExporter
        (okResponse [("USD", usdPrice), ("EUR", eurPrice)])).1.exchangeRate.get "EUR" "ltp"
      = some eurPrice.LTP ∧
    (Collect (Collect newExporter (okResponse [("USD", usdPrice), ("EUR", eurPrice)])).1
        (okResponse [("USD", usdPrice2)])).2 =
      [upSample float64.one, totalScrapesSample 2,
       exchangeRateSample "USD" "ltp" usdPrice2.LTP,
       exchangeRateSample "USD" "ask" usdPrice2.Ask,
       exchangeRateSample "USD" "bid" usdPrice2.Bid,
       exchangeRateSample "EUR" "ltp" eurPrice.LTP,
       exchangeRateSample "EUR" "ask" eurPrice.Ask,
       exchangeRateSample "EUR" "bid" eurPrice.Bid] ∧
    (Collect (Collect newExporter (okResponse [("USD", usdPrice), ("EUR", eurPrice)])).1
        (okResponse [("USD", usdPrice2)])).1.exchangeRate.get "JPY" "ltp" = none :=
  ⟨by decide,
   (scrape_keeps_other_currencies
     (Collect newExporter (okResponse [("USD", usdPrice), ("EUR", eurPrice)])).1 200
     [("USD", usdPrice2)] "EUR" (by decide)).1 "ltp",
   by decide, by decide, by decide⟩

/-- C6: `Describe` returns the exporter unchanged, for every state, and what it
emits is the same before and after a `Describe` or a `Collect`. On the
exporter built by `newExporter`, after any sequence of `Describe` and `Collect`
calls, it emits the same three descriptors: `bitcoin_up`,
`bitcoin_exporter_total_scrapes`, and `bitcoin_exchange_rate` with label names
`currency`, `class`. Every `Describe` call of a sequence emits that list, and
the state after a sequence of calls is the state after its `Collect` calls
alone. -/
theorem describe_fixed_and_without_effect (calls : List Call) (e : exporter) :
    (Describe e).1 = e ∧
    (Describe e).1.up = e.up ∧ (Describe e).1.totalScrapes = e.totalScrapes ∧
    (Describe e).1.exchangeRate = e.exchangeRate ∧
    (Describe (Describe e).1).2 = (Describe e).2 ∧
    (∀ g, (Describe (Collect e g).1).2 = (Describe e).2) ∧
    (Describe (run newExporter calls)).2 = descriptors ∧
    described newExporter calls
      = List.replicate (calls.countP (fun c => !c.isCollect)) descriptors ∧
    descriptors ≠ [] ∧
    descriptors.map (fun d => (d.fqName, d.variableLabels)) =
      [("bitcoin_up", []), ("bitcoin_exporter_total_scrapes", []),
       ("bitcoin_exchange_rate", ["currency", "class"])] ∧
    run e calls = run e (calls.filter Call.isCollect) :=
  ⟨rfl, rfl, rfl, rfl, rfl, Describe_Collect e,
   Describe_of_hasSchema _ (hasSchema_run newExporter calls hasSchema_newExporter),
   described_of_hasSchema newExporter calls hasSchema_newExporter,
   by decide, by decide, run_filter_isCollect e calls⟩

/-- Example for C6: three `Describe` calls around two `Collect` calls. -/
theorem describe_example :
    described newExporter
      [.describe, .collect (okResponse [("USD", usdPrice)]), .describe,
       .collect (.error "connection refused"), .describe]
      = [descriptors, descriptors, descriptors] ∧
    run newExporter
      [.describe, .collect (okResponse [("USD", usdPrice)]), .describe,
       .collect (.error "connection refused"), .describe]
      = collects newExporter [okResponse [("USD", usdPrice)], .error "connection refused"] := by
  decide

/-- C7: a newly constructed exporter has up 0, scrape counter 0 and no
exchange-rate entry; when the fetch of the first `Collect` fails, the samples
emitted are `up` with value 0 and `exporter_total_scrapes` with value 0, and
no `exchange_rate` sample. -/
theorem new_exporter_first_collect_failure (get : GetResult)
    (h : (∃ msg, get = .error msg) ∨ (∃ status msg, get = .ok ⟨status, .error msg⟩)) :
    newExporter.up.val = float64.zero ∧
    newExporter.totalScrapes.val = 0 ∧
    newExporter.exchangeRate.metrics = [] ∧
    (Collect newExporter get).2 = [upSample float64.zero, totalScrapesSample 0] ∧
    (∀ s ∈ (Collect newExporter get).2, s.name ≠ "bitcoin_exchange_rate") := by
  have h0 : (Collect newExporter (.error "")).2
      = [upSample float64.zero, totalScrapesSample 0] := by decide
  have h1 : (Collect newExporter get).2 = [upSample float64.zero, totalScrapesSample 0] := by
    rcases h with ⟨msg, rfl⟩ | ⟨status, msg, rfl⟩
    · exact h0
    · exact h0
  refine ⟨rfl, rfl, rfl, h1, ?_⟩
  rw [h1]
  decide

/-- Witness of C7: the ticker API is unreachable on the first `Collect`. -/
theorem new_exporter_first_collect_failure_witness :
    (Collect newExporter (.error "dial tcp: no route to host")).2
      = [upSample float64.zero, totalScrapesSample 0] :=
  (new_exporter_first_collect_failure (.error "dial tcp: no route to host")
    (Or.inl ⟨"dial tcp: no route to host", rfl⟩)).2.2.2.1

/-- C8: for every exporter state and every fetch outcome, the samples emitted
by `Collect` are the state after that call's scrape: the `up` sample with the
value of the up gauge, the `exporter_total_scrapes` sample with the count, and
for each stored entry `(currency, class)` one `exchange_rate` sample with that
entry's value and the label pairs `currency`, `class`. A sample is emitted if
and only if it is one of these, and no sample is emitted twice. -/
theorem collect_emits_exactly_state (e : exporter) (get : GetResult)
    (hs : e.hasSchema) (hk : e.exchangeRate.keys.Nodup) :
    (Collect e get).1 = scrape e get ∧
    (Collect e get).2 =
      upSample (Collect e get).1.up.val ::
      totalScrapesSample (Collect e get).1.totalScrapes.val ::
      (Collect e get).1.exchangeRate.metrics.map
        (fun kv => exchangeRateSample kv.1.1 kv.1.2 kv.2) ∧
    (∀ c cls v, exchangeRateSample c cls v ∈ (Collect e get).2
      ↔ (Collect e get).1.exchangeRate.get c cls = some v) ∧
    (∀ s, s ∈ (Collect e get).2 ↔
      (s = upSample (Collect e get).1.up.val ∨
       s = totalScrapesSample (Collect e get).1.totalScrapes.val ∨
       ∃ c cls v, (Collect e get).1.exchangeRate.get c cls = some v ∧
         s = exchangeRateSample c cls v)) ∧
    (Collect e get).2.Nodup ∧
    (Collect e get).2.length = 2 + (Collect e get).1.exchangeRate.metrics.length := by
  have hk1 : ((scrape e get).exchangeRate.metrics.map Prod.fst).Nodup :=
    nodup_keys_scrape e get hk
  have hst : (Collect e get).1 = scrape e get := rfl
  have hout := Collect_samples e get hs
  rw [hst, hout]
  refine ⟨rfl, rfl, ?_, ?_, ?_, ?_⟩
  · intro c cls v
    simp only [List.mem_cons, exchangeRateSample_ne_upSample,
      exchangeRateSample_ne_totalScrapesSample, false_or, mem_map_exchangeRateSample]
    constructor
    · exact lookup_eq_some_of_mem _ _ _ hk1
    · exact mem_of_lookup_eq_some _ _ _
  · intro s
    simp only [List.mem_cons]
    constructor
    · rintro (h | h | h)
      · exact Or.inl h
      · exact Or.inr (Or.inl h)
      · obtain ⟨⟨⟨c, cls⟩, v⟩, hm, he⟩ := List.mem_map.mp h
        exact Or.inr (Or.inr ⟨c, cls, v, lookup_eq_some_of_mem _ _ _ hk1 hm, he.symm⟩)
    · rintro (h | h | ⟨c, cls, v, hg, he⟩)
      · exact Or.inl h
      · exact Or.inr (Or.inl h)
      · subst he
        exact Or.inr (Or.inr
          ((mem_map_exchangeRateSample _ _ _ _).mpr (mem_of_lookup_eq_some _ _ _ hg)))
  · refine List.nodup_cons.mpr ⟨?_, List.nodup_cons.mpr ⟨?_, ?_⟩⟩
    · intro h
      rcases List.mem_cons.mp h with h | h
      · exact upSample_ne_totalScrapesSample _ _ h
      · obtain ⟨kv, _, he⟩ := List.mem_map.mp h
        exact exchangeRateSample_ne_upSample _ _ _ _ he
    · intro h
      obtain ⟨kv, _, he⟩ := List.mem_map.mp h
      exact exchangeRateSample_ne_totalScrapesSample _ _ _ _ he
    · exact nodup_map_exchangeRateSample _ (nodup_of_nodup_keys _ hk1)
  · simp only [List.length_cons, List.length_map]
    omega

/-- Witness of C8: a failed fetch after a scrape of USD and EUR; the stale
entries are emitted with up 0. -/
theorem collect_emits_exactly_state_witness :
    ((Collect newExporter (okResponse [("USD", usdPrice), ("EUR", eurPrice)])).1.hasSchema ∧
      (Collect newExporter
        (okResponse [("USD", usdPrice), ("EUR", eurPrice)])).1.exchangeRate.keys.Nodup) ∧
    (Collect (Collect newExporter (okResponse [("USD", usdPrice), ("EUR", eurPrice)])).1
        (.error "timeout")).2.length
      = 2 + (Collect (Collect newExporter (okResponse [("USD", usdPrice), ("EUR", eurPrice)])).1
        (.error "timeout")).1.exchangeRate.metrics.length ∧
    (Collect (Collect newExporter (okResponse [("USD", usdPrice), ("EUR", eurPrice)])).1
        (.error "timeout")).2 =
      [upSample float64.zero, totalScrapesSample 1,
       exchangeRateSample "USD" "ltp" usdPrice.LTP,
       exchangeRateSample "USD" "ask" usdPrice.Ask,
       exchangeRateSample "USD" "bid" usdPrice.Bid,
       exchangeRateSample "EUR" "ltp" eurPrice.LTP,
       exchangeRateSample "EUR" "ask" eurPrice.Ask,
       exchangeRateSample "EUR" "bid" eurPrice.Bid] :=
  ⟨⟨by decide, by decide⟩,
   (collect_emits_exactly_state
     (Collect newExporter (okResponse [("USD", usdPrice), ("EUR", eurPrice)])).1
     (.error "timeout") (by decide) (by decide)).2.2.2.2.2,
   by decide⟩

/-- C10: for every exporter state and every decoded record with distinct
currency keys, the state after a successful scrape does not depend on the
order in which the `range` loop visits the record: for two permutations of its
entries the up gauge, the scrape counter and the descriptor of the vector are
equal, every `(currency, class)` has the same value, the stored entries are the
same up to their order of creation, and so are the emitted samples. And in
every state reached from a new exporter by `Describe` and `Collect` calls, each
currency has the three classes ltp, ask, bid and no other, or no entry. -/
theorem scrape_order_independent_and_complete :
    (∀ (e : exporter) (status : Int) (ps1 ps2 : List (String × price)),
      ps1.Perm ps2 → (ps1.map Prod.fst).Nodup → e.exchangeRate.keys.Nodup →
      (Collect e (.ok ⟨status, .ok ps1⟩)).1.up = (Collect e (.ok ⟨status, .ok ps2⟩)).1.up ∧
      (Collect e (.ok ⟨status, .ok ps1⟩)).1.totalScrapes
        = (Collect e (.ok ⟨status, .ok ps2⟩)).1.totalScrapes ∧
      (Collect e (.ok ⟨status, .ok ps1⟩)).1.exchangeRate.desc
        = (Collect e (.ok ⟨status, .ok ps2⟩)).1.exchangeRate.desc ∧
      (∀ c cls, (Collect e (.ok ⟨status, .ok ps1⟩)).1.exchangeRate.get c cls
        = (Collect e (.ok ⟨status, .ok ps2⟩)).1.exchangeRate.get c cls) ∧
      ((Collect e (.ok ⟨status, .ok ps1⟩)).1.exchangeRate.metrics).Perm
        (Collect e (.ok ⟨status, .ok ps2⟩)).1.exchangeRate.metrics ∧
      ((Collect e (.ok ⟨status, .ok ps1⟩)).2).Perm (Collect e (.ok ⟨status, .ok ps2⟩)).2) ∧
    (∀ calls : List Call, (run newExporter calls).exchangeRate.complete) := by
  constructor
  · intro e status ps1 ps2 hp hn hk
    have hd : (ps1.foldl setRates e.exchangeRate).desc = (ps2.foldl setRates e.exchangeRate).desc := by
      rw [desc_foldl_setRates, desc_foldl_setRates]
    have hg := get_foldl_setRates_perm ps1 ps2 e.exchangeRate hp hn
    have hperm : ((ps1.foldl setRates e.exchangeRate).metrics).Perm
        (ps2.foldl setRates e.exchangeRate).metrics :=
      perm_of_lookup_eq _ _ (nodup_keys_foldl_setRates ps1 _ hk)
        (nodup_keys_foldl_setRates ps2 _ hk) (fun k => hg k.1 k.2)
    refine ⟨rfl, rfl, hd, hg, hperm, ?_⟩
    have hsample : (ps1.foldl setRates e.exchangeRate).sample
        = (ps2.foldl setRates e.exchangeRate).sample := by
      funext kv
      simp only [GaugeVec.sample, hd]
    simp only [Collect, scrape_ok, GaugeVec.Collect, hsample]
    exact List.Perm.append_left _ (hperm.map _)
  · intro calls
    exact complete_run newExporter calls (fun _ => Or.inl (fun _ => rfl))

/-- Witness of C10: the record with USD and EUR visited in both orders on a
fresh exporter; the entries are created in the order of the visit and are the
same up to that order. -/
theorem scrape_order_independent_and_complete_witness :
    ([("USD", usdPrice), ("EUR", eurPrice)].Perm [("EUR", eurPrice), ("USD", usdPrice)] ∧
      ([("USD", usdPrice), ("EUR", eurPrice)].map Prod.fst).Nodup ∧
      newExporter.exchangeRate.keys.Nodup) ∧
    ((Collect newExporter
        (.ok ⟨200, .ok [("USD", usdPrice), ("EUR", eurPrice)]⟩)).1.exchangeRate.metrics).Perm
      (Collect newExporter
        (.ok ⟨200, .ok [("EUR", eurPrice), ("USD", usdPrice)]⟩)).1.exchangeRate.metrics ∧
    (Collect newExporter
        (.ok ⟨200, .ok [("USD", usdPrice), ("EUR", eurPrice)]⟩)).1.exchangeRate.metrics =
      [(("USD", "ltp"), usdPrice.LTP), (("USD", "ask"), usdPrice.Ask),
       (("USD", "bid"), usdPrice.Bid), (("EUR", "ltp"), eurPrice.LTP),
       (("EUR", "ask"), eurPrice.Ask), (("EUR", "bid"), eurPrice.Bid)] ∧
    (Collect newExporter
        (.ok ⟨200, .ok [("EUR", eurPrice), ("USD", usdPrice)]⟩)).1.exchangeRate.metrics =
      [(("EUR", "ltp"), eurPrice.LTP), (("EUR", "ask"), eurPrice.Ask),
       (("EUR", "bid"), eurPrice.Bid), (("USD", "ltp"), usdPrice.LTP),
       (("USD", "ask"), usdPrice.Ask), (("USD", "bid"), usdPrice.Bid)] :=
  ⟨⟨List.Perm.swap _ _ _, by decide, by decide⟩,
   (scrape_order_independent_and_complete.1 newExporter 200
     [("USD", usdPrice), ("EUR", eurPrice)] [("EUR", eurPrice), ("USD", usdPrice)]
     (List.Perm.swap _ _ _) (by decide) (by decide)).2.2.2.2.1,
   by decide, by decide⟩

end BitcoinRatesExporter
